import Mathlib

/-!
Verification of the wait-array (storage/innobase/sync/sync0arr.cc) and of the
buffer-pool page-descriptor lifecycle and scratch slots (include/buf0buf.h)
of this repository, as a shallow embedding in Lean 4.

Machine integers (`ulint`, `ib_int64_t`) are modelled as `Nat`/`Int`; none of
the modelled code relies on wrap-around.  Pointers to wait objects are
modelled by storing the object value inline in the cell (`Option WaitObject`);
a null pointer is `none`.  `ut_a`/`ut_ad` assertions that guard an operation
are modelled by returning `Option` (`none` = assertion failure); diagnostic
print statements are dropped.
-/

namespace Server

/-- Modelled from the spec (section 4.A): the binary event object of
`os0sync` (not part of the corpus).  `reset` clears the signalled state and
returns the generation (`signal_count`) observed; `set` signals the event and
advances the generation. -/
structure OsEvent where
  is_set : Bool
  signal_count : Nat
deriving DecidableEq, Repr

/-- Modelled from the spec (section 4.A): `reset() -> generation`. -/
def os_event_reset (e : OsEvent) : Nat × OsEvent :=
  (e.signal_count, { e with is_set := false })

/-- Modelled from the spec (section 4.A): `set()`; the generation advances
when the event becomes signalled. -/
def os_event_set (e : OsEvent) : OsEvent :=
  if e.is_set then e else { is_set := true, signal_count := e.signal_count + 1 }

/-- The four lock request types a cell can hold: `SYNC_MUTEX`,
`RW_LOCK_SHARED`, `RW_LOCK_EX`, `RW_LOCK_WAIT_EX`. -/
inductive ReqType
  | syncMutex
  | rwLockShared
  | rwLockEx
  | rwLockWaitEx
deriving DecidableEq, Repr

/-- One entry of `rw_lock_t::debug_list` (`rw_lock_debug_t`): a thread that
holds, or waits to hold, the rw-lock in a given mode. -/
structure RwDebug where
  thread_id : Nat
  pass : Nat
  lock_type : ReqType
deriving DecidableEq, Repr

/-- The fields of `ib_mutex_t` read by sync0arr.cc: the lock word, the
holder thread id and the embedded event. -/
structure IbMutex where
  lock_word : Nat
  thread_id : Nat
  event : OsEvent
deriving DecidableEq, Repr

/-- The fields of `rw_lock_t` read by sync0arr.cc: the (signed) lock word,
the two embedded events and the debug list of holders. -/
structure RwLock where
  lock_word : Int
  event : OsEvent
  wait_ex_event : OsEvent
  debug_list : List RwDebug
deriving DecidableEq, Repr

/-- The object a cell waits for: an `ib_mutex_t*` or an `rw_lock_t*`. -/
inductive WaitObject
  | mutexObj (m : IbMutex)
  | rwObj (l : RwLock)
deriving DecidableEq, Repr

/-- Source `sync_cell_t`.  The diagnostic-only fields `old_wait_mutex`,
`old_wait_rw_lock`, `file`, `line` and `reservation_time` are not modelled;
no modelled operation's result depends on them. -/
structure SyncCell where
  wait_object : Option WaitObject
  request_type : ReqType
  thread : Nat
  waiting : Bool
  signal_count : Nat
deriving DecidableEq, Repr

/-- A zero-initialised cell, as produced by the `memset` in
`sync_array_create` (request type 0 is `SYNC_MUTEX`). -/
def emptyCell : SyncCell :=
  { wait_object := none
    request_type := ReqType.syncMutex
    thread := 0
    waiting := false
    signal_count := 0 }

/-- Source `sync_array_t`: the cells, `n_reserved` and the monotonic `res_count`.
The protecting os_mutex is not part of the quiescent state. -/
structure SyncArray where
  cells : List SyncCell
  n_reserved : Nat
  res_count : Nat
deriving DecidableEq, Repr

/-- The number of non-free cells (cells whose `wait_object` is non-null). -/
def countReserved (cells : List SyncCell) : Nat :=
  List.countP (fun c => c.wait_object.isSome) cells

/-- Source `sync_array_create`: all cells zeroed, counters zero.  The source
asserts `n_cells > 0`; reachability carries that hypothesis. -/
def sync_array_create (n_cells : Nat) : SyncArray :=
  { cells := List.replicate n_cells emptyCell
    n_reserved := 0
    res_count := 0 }

/-- Source `sync_array_validate`: the `ut_a(count == arr->n_reserved)` condition,
where `count` is the number of cells with a non-null `wait_object`. -/
def sync_array_validate (arr : SyncArray) : Bool :=
  countReserved arr.cells == arr.n_reserved

/-- Source `sync_cell_get_event`, specialised to resetting: reset the event that
the given request type selects inside the wait object (`event` for a mutex,
`wait_ex_event` for `RW_LOCK_WAIT_EX`, `event` otherwise) and return the
observed `signal_count` together with the updated object. -/
def resetObjectEvent (rt : ReqType) : WaitObject → Nat × WaitObject
  | WaitObject.mutexObj m =>
      ((os_event_reset m.event).1,
        WaitObject.mutexObj { m with event := (os_event_reset m.event).2 })
  | WaitObject.rwObj l =>
      if rt = ReqType.rwLockWaitEx then
        ((os_event_reset l.wait_ex_event).1,
          WaitObject.rwObj { l with wait_ex_event := (os_event_reset l.wait_ex_event).2 })
      else
        ((os_event_reset l.event).1,
          WaitObject.rwObj { l with event := (os_event_reset l.event).2 })

/-- Source `sync_cell_get_event`, specialised to signalling: `os_event_set` on the
event that the request type selects inside the wait object. -/
def setObjectEvent (rt : ReqType) : WaitObject → WaitObject
  | WaitObject.mutexObj m => WaitObject.mutexObj { m with event := os_event_set m.event }
  | WaitObject.rwObj l =>
      if rt = ReqType.rwLockWaitEx then
        WaitObject.rwObj { l with wait_ex_event := os_event_set l.wait_ex_event }
      else
        WaitObject.rwObj { l with event := os_event_set l.event }

/-- The contents `sync_array_reserve_cell` writes into the reserved cell:
`waiting = FALSE`, the wait object (with its event reset), the request type,
the snapshotted `signal_count` and the calling thread. -/
def mkReservedCell (object : WaitObject) (rt : ReqType) (thread : Nat) : SyncCell :=
  { wait_object := some (resetObjectEvent rt object).2
    request_type := rt
    thread := thread
    waiting := false
    signal_count := (resetObjectEvent rt object).1 }

/-- The scan loop of `sync_array_reserve_cell`: find the first cell with a
null `wait_object`, fill it, and return its index with the updated cells. -/
def reserveScan (object : WaitObject) (rt : ReqType) (thread : Nat) :
    List SyncCell → Option (Nat × List SyncCell)
  | [] => none
  | c :: rest =>
      if c.wait_object.isNone then
        some (0, mkReservedCell object rt thread :: rest)
      else
        match reserveScan object rt thread rest with
        | some (i, rest') => some (i + 1, c :: rest')
        | none => none

/-- Source `sync_array_reserve_cell`: `res_count` is incremented unconditionally;
on success `n_reserved` is incremented, the cell filled, and the index
returned (`some i` models `return true` with `*index = i`; `none` models
`return false`). -/
def sync_array_reserve_cell (arr : SyncArray) (object : WaitObject) (rt : ReqType)
    (thread : Nat) : Option Nat × SyncArray :=
  let arr1 : SyncArray := { arr with res_count := arr.res_count + 1 }
  match reserveScan object rt thread arr1.cells with
  | some (i, cells') =>
      (some i, { arr1 with cells := cells', n_reserved := arr1.n_reserved + 1 })
  | none => (none, arr1)

/-- Source `sync_array_free_cell`: requires a valid index (`ut_a(n < n_cells)`), a
non-null `wait_object` (`ut_a`) and `n_reserved > 0` (`ut_a`); clears the
cell and decrements `n_reserved`.  `none` models an assertion failure. -/
def sync_array_free_cell (arr : SyncArray) (index : Nat) : Option SyncArray :=
  match arr.cells.get? index with
  | none => none
  | some cell =>
      if cell.wait_object.isNone then none
      else if arr.n_reserved = 0 then none
      else
        some { arr with
          cells := arr.cells.set index
            { cell with waiting := false, wait_object := none, signal_count := 0 }
          n_reserved := arr.n_reserved - 1 }

/-- Source `sync_array_wait_event`: requires a valid index, a non-null
`wait_object` (`ut_a`) and `!cell->waiting` (`ut_a`); marks the cell
waiting, blocks on the event (no quiescent effect), then frees the cell via
`sync_array_free_cell`. -/
def sync_array_wait_event (arr : SyncArray) (index : Nat) : Option SyncArray :=
  match arr.cells.get? index with
  | none => none
  | some cell =>
      if cell.wait_object.isNone then none
      else if cell.waiting then none
      else
        sync_array_free_cell
          { arr with cells := arr.cells.set index { cell with waiting := true } }
          index

/-- Source `sync_arr_cell_can_wake_up`: the release predicate checked by the
unstick sweep, per request type.  The source casts `wait_object` according
to `request_type`; a kind mismatch (never produced by the latch code) is
modelled as `false`. -/
def sync_arr_cell_can_wake_up (cell : SyncCell) : Bool :=
  match cell.request_type, cell.wait_object with
  | ReqType.syncMutex, some (WaitObject.mutexObj m) => m.lock_word == 0
  | ReqType.rwLockEx, some (WaitObject.rwObj l) => 0 < l.lock_word
  | ReqType.rwLockWaitEx, some (WaitObject.rwObj l) => l.lock_word == 0
  | ReqType.rwLockShared, some (WaitObject.rwObj l) => 0 < l.lock_word
  | _, _ => false

/-- Setting the event of a cell's wait object, as done by the unstick sweep
(`event = sync_cell_get_event(cell); os_event_set(event)`). -/
def wakeCell (cell : SyncCell) : SyncCell :=
  { cell with wait_object := cell.wait_object.map (setObjectEvent cell.request_type) }

/-- The loop of `sync_array_wake_threads_if_sema_free_low`: iterate from
index 0 until `need` (initially `n_reserved`) reserved cells have been seen;
signal each reserved cell satisfying `sync_arr_cell_can_wake_up`. -/
def wakeSweepCells : List SyncCell → Nat → List SyncCell
  | cells, 0 => cells
  | [], _ => []
  | c :: rest, need + 1 =>
      if c.wait_object.isSome then
        (if sync_arr_cell_can_wake_up c then wakeCell c else c) :: wakeSweepCells rest need
      else
        c :: wakeSweepCells rest (need + 1)

/-- Source `sync_array_wake_threads_if_sema_free_low`. -/
def sync_array_wake_threads_if_sema_free_low (arr : SyncArray) : SyncArray :=
  { arr with cells := wakeSweepCells arr.cells arr.n_reserved }

/-- The per-cell effect of one unstick sweep: a reserved cell whose wait
object satisfies the release predicate has its event set; every other cell
is left unchanged. -/
def wakeFun (c : SyncCell) : SyncCell :=
  if c.wait_object.isSome && sync_arr_cell_can_wake_up c then wakeCell c else c

/-- Source `sync_array_find_thread`: index of the first cell with a non-null
`wait_object` and the given thread id. -/
def sync_array_find_thread (cells : List SyncCell) (thread : Nat) : Option Nat :=
  List.findIdx? (fun c => c.wait_object.isSome && c.thread == thread) cells

/-- Source `sync_array_init`: `sync_array_size` arrays, each of
`1 + (n_threads - 1) / sync_array_size` cells.  The source asserts
`srv_sync_array_size > 0` and `n_threads > 0`. -/
def sync_array_init (n_threads : Nat) (sync_array_size : Nat) : List SyncArray :=
  List.replicate sync_array_size (sync_array_create (1 + (n_threads - 1) / sync_array_size))

/-- Source `sync_array_deadlock_step`: if `pass != 0`, no deadlock can be
concluded; otherwise look up the cell of `thread` — the start cell means a
cycle (deadlock), any other reserved cell is searched recursively through
the continuation `recur`. -/
def sync_array_deadlock_step (cells : List SyncCell) (start : Nat) (thread : Nat)
    (pass : Nat) (recur : Nat → Bool) : Bool :=
  if pass != 0 then false
  else
    match sync_array_find_thread cells thread with
    | some idx => if idx = start then true else recur idx
    | none => false

/-- Source `sync_array_detect_deadlock` (debug builds).  Cells are addressed by
index; pointer equality with `start` is index equality.  The `fuel`
parameter models the `ut_ad(depth < 100)` recursion bound; the source
(debug-)aborts past it, the model returns `false`, and every theorem below
supplies ample fuel.  A mutex wait follows the holder thread when the lock
word is non-zero; an `RW_LOCK_EX`/`RW_LOCK_WAIT_EX` wait follows every
debug-list entry that is an exclusive or wait-exclusive holder of a
different thread, or any shared holder; an `RW_LOCK_SHARED` wait follows
every exclusive or wait-exclusive debug-list entry. -/
def sync_array_detect_deadlock (cells : List SyncCell) (start : Nat) :
    Nat → Nat → Bool
  | _, 0 => false
  | cur, fuel + 1 =>
      match cells.get? cur with
      | none => false
      | some cell =>
          if !cell.waiting then false
          else
            match cell.request_type, cell.wait_object with
            | ReqType.syncMutex, some (WaitObject.mutexObj m) =>
                if m.lock_word != 0 then
                  sync_array_deadlock_step cells start m.thread_id 0
                    (fun idx => sync_array_detect_deadlock cells start idx fuel)
                else false
            | ReqType.rwLockEx, some (WaitObject.rwObj l) =>
                l.debug_list.any (fun d =>
                  (((d.lock_type == ReqType.rwLockEx) && !(d.thread_id == cell.thread))
                    || ((d.lock_type == ReqType.rwLockWaitEx) && !(d.thread_id == cell.thread))
                    || (d.lock_type == ReqType.rwLockShared))
                  && sync_array_deadlock_step cells start d.thread_id d.pass
                      (fun idx => sync_array_detect_deadlock cells start idx fuel))
            | ReqType.rwLockWaitEx, some (WaitObject.rwObj l) =>
                l.debug_list.any (fun d =>
                  (((d.lock_type == ReqType.rwLockEx) && !(d.thread_id == cell.thread))
                    || ((d.lock_type == ReqType.rwLockWaitEx) && !(d.thread_id == cell.thread))
                    || (d.lock_type == ReqType.rwLockShared))
                  && sync_array_deadlock_step cells start d.thread_id d.pass
                      (fun idx => sync_array_detect_deadlock cells start idx fuel))
            | ReqType.rwLockShared, some (WaitObject.rwObj l) =>
                l.debug_list.any (fun d =>
                  ((d.lock_type == ReqType.rwLockEx) || (d.lock_type == ReqType.rwLockWaitEx))
                  && sync_array_deadlock_step cells start d.thread_id d.pass
                      (fun idx => sync_array_detect_deadlock cells start idx fuel))
            | _, _ => false

/-- Formalisation of claim C6 exactly as stated, for comparison with
`sync_array_detect_deadlock`: on an exclusive (or wait-exclusive) request
the traversal visits every holder — reader or writer — *whose thread
differs from the requester*; everything else follows the source. -/
def claim_detect_deadlock_strict (cells : List SyncCell) (start : Nat) :
    Nat → Nat → Bool
  | _, 0 => false
  | cur, fuel + 1 =>
      match cells.get? cur with
      | none => false
      | some cell =>
          if !cell.waiting then false
          else
            match cell.request_type, cell.wait_object with
            | ReqType.syncMutex, some (WaitObject.mutexObj m) =>
                if m.lock_word != 0 then
                  sync_array_deadlock_step cells start m.thread_id 0
                    (fun idx => claim_detect_deadlock_strict cells start idx fuel)
                else false
            | ReqType.rwLockEx, some (WaitObject.rwObj l) =>
                l.debug_list.any (fun d =>
                  !(d.thread_id == cell.thread)
                  && sync_array_deadlock_step cells start d.thread_id d.pass
                      (fun idx => claim_detect_deadlock_strict cells start idx fuel))
            | ReqType.rwLockWaitEx, some (WaitObject.rwObj l) =>
                l.debug_list.any (fun d =>
                  !(d.thread_id == cell.thread)
                  && sync_array_deadlock_step cells start d.thread_id d.pass
                      (fun idx => claim_detect_deadlock_strict cells start idx fuel))
            | ReqType.rwLockShared, some (WaitObject.rwObj l) =>
                l.debug_list.any (fun d =>
                  ((d.lock_type == ReqType.rwLockEx) || (d.lock_type == ReqType.rwLockWaitEx))
                  && sync_array_deadlock_step cells start d.thread_id d.pass
                      (fun idx => claim_detect_deadlock_strict cells start idx fuel))
            | _, _ => false

/-- The amended visiting condition for an exclusive or wait-exclusive
request, as the source implements it: an exclusive or wait-exclusive
debug-list entry of a *different* thread, or a shared entry of *any*
thread (a shared holder may be the requester itself — that is precisely
the self-deadlock of upgrading S to X). -/
def claim_visit_ex (reqThread : Nat) (d : RwDebug) : Bool :=
  ((d.lock_type == ReqType.rwLockEx || d.lock_type == ReqType.rwLockWaitEx)
     && !(d.thread_id == reqThread))
  || (d.lock_type == ReqType.rwLockShared)

/-- Claim C6 as amended: identical to the claim's traversal except that on
an exclusive request shared holders are visited regardless of thread
(`claim_visit_ex`). -/
def claim_detect_deadlock_amended (cells : List SyncCell) (start : Nat) :
    Nat → Nat → Bool
  | _, 0 => false
  | cur, fuel + 1 =>
      match cells.get? cur with
      | none => false
      | some cell =>
          if !cell.waiting then false
          else
            match cell.request_type, cell.wait_object with
            | ReqType.syncMutex, some (WaitObject.mutexObj m) =>
                if m.lock_word != 0 then
                  sync_array_deadlock_step cells start m.thread_id 0
                    (fun idx => claim_detect_deadlock_amended cells start idx fuel)
                else false
            | ReqType.rwLockEx, some (WaitObject.rwObj l) =>
                l.debug_list.any (fun d =>
                  claim_visit_ex cell.thread d
                  && sync_array_deadlock_step cells start d.thread_id d.pass
                      (fun idx => claim_detect_deadlock_amended cells start idx fuel))
            | ReqType.rwLockWaitEx, some (WaitObject.rwObj l) =>
                l.debug_list.any (fun d =>
                  claim_visit_ex cell.thread d
                  && sync_array_deadlock_step cells start d.thread_id d.pass
                      (fun idx => claim_detect_deadlock_amended cells start idx fuel))
            | ReqType.rwLockShared, some (WaitObject.rwObj l) =>
                l.debug_list.any (fun d =>
                  ((d.lock_type == ReqType.rwLockEx) || (d.lock_type == ReqType.rwLockWaitEx))
                  && sync_array_deadlock_step cells start d.thread_id d.pass
                      (fun idx => claim_detect_deadlock_amended cells start idx fuel))
            | _, _ => false

/-! ## Buffer pool page descriptors (include/buf0buf.h) -/

/-- Source `enum buf_page_state` (values 0..7, in source order). -/
inductive buf_page_state
  | poolWatch
  | zipPage
  | zipDirty
  | notUsed
  | readyForUse
  | filePage
  | memory
  | removeHash
deriving DecidableEq, Repr

/-- Source `enum buf_io_fix`. -/
inductive buf_io_fix
  | ioNone
  | ioRead
  | ioWrite
  | ioPin
deriving DecidableEq, Repr

/-- The fields of `buf_page_t` that the lifecycle claims are about:
state, pin count (`buf_fix_count`), pending I/O (`io_fix`), the two
modification LSNs and the debug list-membership flags `in_flush_list`
and `in_free_list`. -/
structure buf_page_t where
  state : buf_page_state
  buf_fix_count : Nat
  io_fix : buf_io_fix
  oldest_modification : Nat
  newest_modification : Nat
  in_flush_list : Bool
  in_free_list : Bool
deriving DecidableEq, Repr

/-- Modelled from the spec: a fresh descriptor at pool initialisation
sits in the free list in state `NOT_USED`, clean and unpinned. -/
def initialPage : buf_page_t :=
  { state := buf_page_state.notUsed
    buf_fix_count := 0
    io_fix := buf_io_fix.ioNone
    oldest_modification := 0
    newest_modification := 0
    in_flush_list := false
    in_free_list := true }

/-- Modelled from the spec: taking a descriptor off the free list
(`buf_LRU_get_free_block`), `NOT_USED -> READY_FOR_USE`.  The allocating
code (buf0lru.cc) is not part of the corpus. -/
def buf_LRU_get_free_block (d : buf_page_t) : Option buf_page_t :=
  if d.state = buf_page_state.notUsed then
    some { d with state := buf_page_state.readyForUse, in_free_list := false }
  else none

/-- Modelled from the spec: allocating the block for a main-memory
object, `READY_FOR_USE -> MEMORY`. -/
def buf_block_to_memory (d : buf_page_t) : Option buf_page_t :=
  if d.state = buf_page_state.readyForUse then
    some { d with state := buf_page_state.memory }
  else none

/-- Modelled from the spec: initialising the block as a file page on the
miss/create path, `READY_FOR_USE -> FILE_PAGE`, clean. -/
def buf_page_init_file_page (d : buf_page_t) : Option buf_page_t :=
  if d.state = buf_page_state.readyForUse then
    some { d with state := buf_page_state.filePage
                  oldest_modification := 0
                  in_flush_list := false }
  else none

/-- Modelled from the spec: returning a main-memory block to the free
list, `MEMORY -> NOT_USED`. -/
def buf_block_free_memory (d : buf_page_t) : Option buf_page_t :=
  if d.state = buf_page_state.memory then
    some { d with state := buf_page_state.notUsed, in_free_list := true }
  else none

/-- Modelled from the spec (section 4.G, and the consistency conditions
documented in buf0buf.h): evicting a file page, `FILE_PAGE -> NOT_USED`,
permitted only when `buf_fix_count == 0`, `oldest_modification == 0` and
`io_fix == NONE`. -/
def buf_LRU_evict_file_page (d : buf_page_t) : Option buf_page_t :=
  if d.state = buf_page_state.filePage ∧ d.buf_fix_count = 0
      ∧ d.oldest_modification = 0 ∧ d.io_fix = buf_io_fix.ioNone then
    some { d with state := buf_page_state.notUsed, in_free_list := true }
  else none

/-- Modelled from the spec: a mutation of a file page at LSN `lsn > 0`
bumps `newest_modification` and, on first dirtying, sets
`oldest_modification` and links the descriptor into the flush list. -/
def buf_flush_note_modification (d : buf_page_t) (lsn : Nat) : Option buf_page_t :=
  if d.state = buf_page_state.filePage ∧ 0 < lsn then
    if d.oldest_modification = 0 then
      some { d with newest_modification := lsn
                    oldest_modification := lsn
                    in_flush_list := true }
    else
      some { d with newest_modification := lsn }
  else none

/-- Modelled from the spec: completion of a flush write clears
`oldest_modification` and removes the descriptor from the flush list. -/
def buf_flush_write_complete (d : buf_page_t) : Option buf_page_t :=
  if d.in_flush_list then
    some { d with oldest_modification := 0, in_flush_list := false }
  else none

/-- Modelled from the spec: pinning (bufferfix). -/
def buf_page_fix (d : buf_page_t) : buf_page_t :=
  { d with buf_fix_count := d.buf_fix_count + 1 }

/-- Modelled from the spec: unpinning. -/
def buf_page_unfix (d : buf_page_t) : Option buf_page_t :=
  if 0 < d.buf_fix_count then
    some { d with buf_fix_count := d.buf_fix_count - 1 }
  else none

/-- Modelled from the spec: setting the pending-I/O marker of a file
page (read/write/pin slots). -/
def buf_page_set_io_fix (d : buf_page_t) (io : buf_io_fix) : Option buf_page_t :=
  if d.state = buf_page_state.filePage then
    some { d with io_fix := io }
  else none

/-- One quiescent step of a page descriptor: any one of the modelled
operations applied successfully. -/
inductive BufStep (d : buf_page_t) : buf_page_t → Prop
  | getFree (d' : buf_page_t) (h : buf_LRU_get_free_block d = some d') : BufStep d d'
  | toMemory (d' : buf_page_t) (h : buf_block_to_memory d = some d') : BufStep d d'
  | initFilePage (d' : buf_page_t) (h : buf_page_init_file_page d = some d') : BufStep d d'
  | freeMemory (d' : buf_page_t) (h : buf_block_free_memory d = some d') : BufStep d d'
  | evict (d' : buf_page_t) (h : buf_LRU_evict_file_page d = some d') : BufStep d d'
  | noteModification (d' : buf_page_t) (lsn : Nat)
      (h : buf_flush_note_modification d lsn = some d') : BufStep d d'
  | writeComplete (d' : buf_page_t) (h : buf_flush_write_complete d = some d') : BufStep d d'
  | fix : BufStep d (buf_page_fix d)
  | unfix (d' : buf_page_t) (h : buf_page_unfix d = some d') : BufStep d d'
  | setIoFix (d' : buf_page_t) (io : buf_io_fix)
      (h : buf_page_set_io_fix d io = some d') : BufStep d d'

/-- Descriptor states reachable from pool initialisation through the
modelled operations. -/
inductive BufReachable : buf_page_t → Prop
  | init : BufReachable initialPage
  | step (d d' : buf_page_t) (hd : BufReachable d) (h : BufStep d d') : BufReachable d'

/-- The state-transition pairs documented in buf0buf.h:
`NOT_USED => READY_FOR_USE`, `READY_FOR_USE => MEMORY`,
`READY_FOR_USE => FILE_PAGE`, `MEMORY => NOT_USED`,
`FILE_PAGE => NOT_USED`. -/
def allowedTransition : buf_page_state → buf_page_state → Bool
  | buf_page_state.notUsed, buf_page_state.readyForUse => true
  | buf_page_state.readyForUse, buf_page_state.memory => true
  | buf_page_state.readyForUse, buf_page_state.filePage => true
  | buf_page_state.memory, buf_page_state.notUsed => true
  | buf_page_state.filePage, buf_page_state.notUsed => true
  | _, _ => false

/-- A dirty state in the sense of claim C4: a file page with an
unflushed modification, or `ZIP_DIRTY`. -/
def dirtyState (d : buf_page_t) : Prop :=
  (d.state = buf_page_state.filePage ∧ 0 < d.oldest_modification)
  ∨ d.state = buf_page_state.zipDirty

/-! ## Scratch slots (buf_tmp_buffer_t, include/buf0buf.h) -/

/-- Source `buf_tmp_buffer_t`: the atomic `reserved` flag.  The three buffer
pointers (`crypt_buf`, `comp_buf`, `out_buf`) play no part in the
acquire/release protocol and are not modelled. -/
structure buf_tmp_buffer_t where
  reserved : Bool
deriving DecidableEq, Repr

/-- Source `buf_tmp_buffer_t::release()`: clear the flag. -/
def buf_tmp_buffer_t.release (_ : buf_tmp_buffer_t) : buf_tmp_buffer_t :=
  { reserved := false }

/-- Source `buf_tmp_buffer_t::acquire()`: atomic fetch-and-store of `true`
(`my_atomic_fas32_explicit`); returns the negation of the previous value
together with the new slot state. -/
def buf_tmp_buffer_t.acquire (s : buf_tmp_buffer_t) : Bool × buf_tmp_buffer_t :=
  (!s.reserved, { reserved := true })

/-! ## Reachable wait-array states -/

/-- Wait-array states reachable, at quiescent points, from
`sync_array_create` through the mutating operations of sync0arr.cc. -/
inductive SyncReachable : SyncArray → Prop
  | init (n : Nat) (h : 0 < n) : SyncReachable (sync_array_create n)
  | reserve (arr : SyncArray) (o : WaitObject) (rt : ReqType) (t : Nat)
      (h : SyncReachable arr) : SyncReachable (sync_array_reserve_cell arr o rt t).2
  | waitEvent (arr arr' : SyncArray) (i : Nat) (h : SyncReachable arr)
      (hw : sync_array_wait_event arr i = some arr') : SyncReachable arr'
  | freeCell (arr arr' : SyncArray) (i : Nat) (h : SyncReachable arr)
      (hf : sync_array_free_cell arr i = some arr') : SyncReachable arr'
  | waitMark (arr : SyncArray) (i : Nat) (c : SyncCell) (h : SyncReachable arr)
      (hc : arr.cells.get? i = some c) (hres : c.wait_object.isSome = true)
      (hw : c.waiting = false) :
      SyncReachable { arr with cells := arr.cells.set i { c with waiting := true } }
  | wake (arr : SyncArray) (h : SyncReachable arr) :
      SyncReachable (sync_array_wake_threads_if_sema_free_low arr)

/-! ## Concrete states used by the closed theorems -/

/-- A non-signalled event at generation 0. -/
def demoEvent : OsEvent := { is_set := false, signal_count := 0 }

/-- A held mutex (lock word 1) owned by thread 3. -/
def demoMutex : IbMutex := { lock_word := 1, thread_id := 3, event := demoEvent }

/-- The held mutex as a wait object. -/
def demoMutexObj : WaitObject := WaitObject.mutexObj demoMutex

/-- A released mutex (lock word 0). -/
def relMutex : IbMutex := { lock_word := 0, thread_id := 0, event := demoEvent }

/-- A cell of thread 5 waiting for the released mutex. -/
def relMutexCell : SyncCell :=
  { wait_object := some (WaitObject.mutexObj relMutex)
    request_type := ReqType.syncMutex
    thread := 5
    waiting := true
    signal_count := 0 }

/-- A two-cell wait array whose first cell waits for a released mutex. -/
def sweepDemoArr : SyncArray :=
  { cells := [relMutexCell, emptyCell], n_reserved := 1, res_count := 1 }

/-- An rw-lock whose debug list holds one shared entry of thread 7. -/
def selfDeadlockRw : RwLock :=
  { lock_word := 0
    event := demoEvent
    wait_ex_event := demoEvent
    debug_list := [{ thread_id := 7, pass := 0, lock_type := ReqType.rwLockShared }] }

/-- Thread 7, holding `selfDeadlockRw` in shared mode, waiting to acquire
the same lock exclusively: a self-deadlock. -/
def selfDeadlockCell : SyncCell :=
  { wait_object := some (WaitObject.rwObj selfDeadlockRw)
    request_type := ReqType.rwLockEx
    thread := 7
    waiting := true
    signal_count := 0 }

/-- A one-cell array after thread 4 reserved its only cell. -/
def fullDemoArr : SyncArray :=
  (sync_array_reserve_cell (sync_array_create 1) demoMutexObj ReqType.syncMutex 4).2

/-- State `fullDemoArr` after its cell is freed again. -/
def freedDemoArr : SyncArray :=
  { cells := [{ wait_object := none, request_type := ReqType.syncMutex, thread := 4,
                waiting := false, signal_count := 0 }]
    n_reserved := 0
    res_count := 1 }

/-- A cell occupied by thread 2 (used to exercise the first-free scan). -/
def busyCell : SyncCell :=
  { wait_object := some demoMutexObj
    request_type := ReqType.syncMutex
    thread := 2
    waiting := false
    signal_count := 0 }

/-- A two-cell array whose cell 0 is occupied and cell 1 is free. -/
def halfFullArr : SyncArray :=
  { cells := [busyCell, emptyCell], n_reserved := 1, res_count := 1 }

/-- The descriptor after `buf_LRU_get_free_block` on `initialPage`. -/
def readyDemoPage : buf_page_t :=
  { state := buf_page_state.readyForUse
    buf_fix_count := 0
    io_fix := buf_io_fix.ioNone
    oldest_modification := 0
    newest_modification := 0
    in_flush_list := false
    in_free_list := false }

/-- State `readyDemoPage` initialised as a clean file page. -/
def cleanDemoPage : buf_page_t :=
  { readyDemoPage with state := buf_page_state.filePage }

/-- State `cleanDemoPage` after a modification at LSN 100. -/
def dirtyDemoPage : buf_page_t :=
  { cleanDemoPage with
    oldest_modification := 100
    newest_modification := 100
    in_flush_list := true }

/-! ## Helper lemmas -/

theorem countReserved_nil : countReserved [] = 0 := rfl

theorem countReserved_cons (c : SyncCell) (rest : List SyncCell) :
    countReserved (c :: rest)
      = countReserved rest + (if c.wait_object.isSome then 1 else 0) := by
  simp [countReserved, List.countP_cons]

theorem countReserved_replicate_empty (n : Nat) :
    countReserved (List.replicate n emptyCell) = 0 := by
  induction n with
  | zero => rfl
  | succ n ih => simpa [List.replicate_succ, countReserved_cons, emptyCell] using ih

theorem countReserved_set (cells : List SyncCell) (i : Nat) (c c' : SyncCell)
    (h : cells.get? i = some c) :
    countReserved (cells.set i c') + (if c.wait_object.isSome then 1 else 0)
      = countReserved cells + (if c'.wait_object.isSome then 1 else 0) := by
  induction cells generalizing i with
  | nil => simp at h
  | cons a rest ih =>
      cases i with
      | zero =>
          simp only [List.get?] at h
          cases h
          simp only [List.set, countReserved_cons]
          omega
      | succ n =>
          simp only [List.get?] at h
          have := ih n h
          simp only [List.set, countReserved_cons]
          omega

theorem reserveScan_none_iff (o : WaitObject) (rt : ReqType) (t : Nat)
    (cells : List SyncCell) :
    reserveScan o rt t cells = none ↔ ∀ c ∈ cells, c.wait_object.isSome = true := by
  induction cells with
  | nil => simp [reserveScan]
  | cons a rest ih =>
      by_cases ha : a.wait_object.isNone
      · simp only [reserveScan, if_pos ha]
        constructor
        · intro h; cases h
        · intro h
          have := h a (by simp)
          rw [Option.isNone_iff_eq_none] at ha
          simp [ha] at this
      · simp only [reserveScan, if_neg ha]
        have ha' : a.wait_object.isSome = true := by
          cases hx : a.wait_object with
          | none => rw [Option.isNone_iff_eq_none] at ha; exact absurd hx ha
          | some v => simp
        cases hscan : reserveScan o rt t rest with
        | none =>
            simp only [hscan] at ih
            constructor
            · intro _ c hc
              rcases List.mem_cons.mp hc with rfl | hc'
              · exact ha'
              · exact (ih.mp trivial) c hc'
            · intro _; rfl
        | some p =>
            constructor
            · intro h; cases h
            · intro h
              have : reserveScan o rt t rest = none := by
                rw [ih]
                intro c hc; exact h c (List.mem_cons_of_mem _ hc)
              rw [this] at hscan; cases hscan

theorem reserveScan_some_spec (o : WaitObject) (rt : ReqType) (t : Nat)
    (cells : List SyncCell) (i : Nat) (cells' : List SyncCell)
    (h : reserveScan o rt t cells = some (i, cells')) :
    (∃ c, cells.get? i = some c ∧ c.wait_object = none)
    ∧ (∀ j, j < i → ∃ c, cells.get? j = some c ∧ c.wait_object.isSome = true)
    ∧ cells' = cells.set i (mkReservedCell o rt t) := by
  induction cells generalizing i cells' with
  | nil => simp [reserveScan] at h
  | cons a rest ih =>
      by_cases ha : a.wait_object.isNone
      · simp only [reserveScan, if_pos ha] at h
        cases h
        refine ⟨⟨a, rfl, Option.isNone_iff_eq_none.mp ha⟩, ?_, rfl⟩
        intro j hj; omega
      · simp only [reserveScan, if_neg ha] at h
        have ha' : a.wait_object.isSome = true := by
          cases hx : a.wait_object with
          | none => rw [Option.isNone_iff_eq_none] at ha; exact absurd hx ha
          | some v => simp
        cases hscan : reserveScan o rt t rest with
        | none => rw [hscan] at h; cases h
        | some p =>
            obtain ⟨i0, rest'⟩ := p
            rw [hscan] at h
            cases h
            obtain ⟨⟨c, hc, hcnone⟩, hbefore, hset⟩ := ih i0 rest' hscan
            refine ⟨⟨c, hc, hcnone⟩, ?_, by simp [List.set, hset]⟩
            intro j hj
            cases j with
            | zero => exact ⟨a, rfl, ha'⟩
            | succ j' =>
                have := hbefore j' (by omega)
                simpa using this

theorem sync_array_free_cell_eq (arr : SyncArray) (i : Nat) (arr' : SyncArray)
    (h : sync_array_free_cell arr i = some arr') :
    ∃ c, arr.cells.get? i = some c ∧ c.wait_object.isSome = true ∧ 0 < arr.n_reserved ∧
      arr' = { arr with
        cells := arr.cells.set i { c with waiting := false, wait_object := none, signal_count := 0 }
        n_reserved := arr.n_reserved - 1 } := by
  cases hc : arr.cells.get? i with
  | none =>
      simp only [sync_array_free_cell, hc] at h
      exact Option.noConfusion h
  | some c =>
      simp only [sync_array_free_cell, hc] at h
      by_cases hn : c.wait_object = none
      · simp [hn] at h
      · rw [if_neg (by simpa using hn)] at h
        by_cases hr : arr.n_reserved = 0
        · rw [if_pos hr] at h; cases h
        · rw [if_neg hr] at h
          cases h
          exact ⟨c, rfl, Option.ne_none_iff_isSome.mp hn, Nat.pos_of_ne_zero hr, rfl⟩

theorem sync_array_wait_event_eq (arr : SyncArray) (i : Nat) (arr' : SyncArray)
    (h : sync_array_wait_event arr i = some arr') :
    ∃ c, arr.cells.get? i = some c ∧ c.wait_object.isSome = true ∧ c.waiting = false ∧
      sync_array_free_cell
        { arr with cells := arr.cells.set i { c with waiting := true } } i = some arr' := by
  cases hc : arr.cells.get? i with
  | none =>
      simp only [sync_array_wait_event, hc] at h
      exact Option.noConfusion h
  | some c =>
      simp only [sync_array_wait_event, hc] at h
      by_cases hn : c.wait_object = none
      · simp [hn] at h
      · rw [if_neg (by simpa using hn)] at h
        by_cases hw : c.waiting
        · rw [if_pos hw] at h; cases h
        · rw [if_neg hw] at h
          exact ⟨c, rfl, Option.ne_none_iff_isSome.mp hn, Bool.eq_false_iff.mpr hw, h⟩

theorem wakeCell_isSome (c : SyncCell) :
    (wakeCell c).wait_object.isSome = c.wait_object.isSome := by
  simp [wakeCell]

theorem countReserved_wakeSweep (cells : List SyncCell) :
    ∀ k, countReserved (wakeSweepCells cells k) = countReserved cells := by
  induction cells with
  | nil => intro k; cases k <;> rfl
  | cons c rest ih =>
      intro k
      cases k with
      | zero => rfl
      | succ n =>
          by_cases hs : c.wait_object.isSome
          · by_cases hw : sync_arr_cell_can_wake_up c
            · simp [wakeSweepCells, hs, hw, countReserved_cons, wakeCell_isSome, ih]
            · simp [wakeSweepCells, hs, hw, countReserved_cons, ih]
          · simp [wakeSweepCells, hs, countReserved_cons, ih]

/-- The quiescent count invariant of a wait array. -/
def syncInv (arr : SyncArray) : Prop :=
  countReserved arr.cells = arr.n_reserved

theorem syncInv_reserve (arr : SyncArray) (o : WaitObject) (rt : ReqType) (t : Nat)
    (h : syncInv arr) : syncInv (sync_array_reserve_cell arr o rt t).2 := by
  cases hscan : reserveScan o rt t arr.cells with
  | none =>
      simp only [syncInv, sync_array_reserve_cell, hscan]
      exact h
  | some p =>
      obtain ⟨i, cells'⟩ := p
      obtain ⟨⟨c, hc, hnone⟩, _, hset⟩ := reserveScan_some_spec o rt t arr.cells i cells' hscan
      have hcount := countReserved_set arr.cells i c (mkReservedCell o rt t) hc
      simp only [syncInv] at h
      simp only [syncInv, sync_array_reserve_cell, hscan, hset]
      have hsome : (mkReservedCell o rt t).wait_object.isSome = true := rfl
      simp [hnone, hsome] at hcount
      omega

theorem syncInv_free (arr : SyncArray) (i : Nat) (arr' : SyncArray)
    (h : syncInv arr) (hf : sync_array_free_cell arr i = some arr') : syncInv arr' := by
  obtain ⟨c, hc, hsome, hpos, rfl⟩ := sync_array_free_cell_eq arr i arr' hf
  have hcount := countReserved_set arr.cells i c
    { c with waiting := false, wait_object := none, signal_count := 0 } hc
  simp only [syncInv] at h ⊢
  simp [hsome] at hcount
  omega

theorem syncInv_wait (arr : SyncArray) (i : Nat) (arr' : SyncArray)
    (h : syncInv arr) (hw : sync_array_wait_event arr i = some arr') : syncInv arr' := by
  obtain ⟨c, hc, hsome, _, hfree⟩ := sync_array_wait_event_eq arr i arr' hw
  apply syncInv_free _ i _ _ hfree
  have hcount := countReserved_set arr.cells i c { c with waiting := true } hc
  simp only [syncInv] at h ⊢
  simp [hsome] at hcount
  omega

theorem syncInv_wake (arr : SyncArray) (h : syncInv arr) :
    syncInv (sync_array_wake_threads_if_sema_free_low arr) := by
  simpa [syncInv, sync_array_wake_threads_if_sema_free_low, countReserved_wakeSweep] using h

theorem syncInv_reachable (arr : SyncArray) (h : SyncReachable arr) : syncInv arr := by
  induction h with
  | init n hn => simp [syncInv, sync_array_create, countReserved_replicate_empty]
  | reserve arr o rt t _ ih => exact syncInv_reserve arr o rt t ih
  | waitEvent arr arr' i _ hw ih => exact syncInv_wait arr i arr' ih hw
  | freeCell arr arr' i _ hf ih => exact syncInv_free arr i arr' ih hf
  | waitMark arr i c _ hc hres hw ih =>
      have hcount := countReserved_set arr.cells i c { c with waiting := true } hc
      simp only [syncInv] at ih ⊢
      simp [hres] at hcount
      omega
  | wake arr _ ih => exact syncInv_wake arr ih

theorem wakeFun_not_reserved (c : SyncCell) (h : c.wait_object.isSome = false) :
    wakeFun c = c := by
  simp [wakeFun, h]

theorem map_wakeFun_of_count_zero (cells : List SyncCell)
    (h : countReserved cells = 0) : cells.map wakeFun = cells := by
  induction cells with
  | nil => rfl
  | cons c rest ih =>
      rw [countReserved_cons] at h
      cases hs : c.wait_object.isSome with
      | true => simp [hs] at h
      | false =>
          simp only [List.map]
          rw [wakeFun_not_reserved c hs, ih (by omega)]

theorem wakeSweep_eq_map (cells : List SyncCell) :
    wakeSweepCells cells (countReserved cells) = cells.map wakeFun := by
  induction cells with
  | nil => rfl
  | cons c rest ih =>
      cases hs : c.wait_object.isSome with
      | true =>
          have hcnt : countReserved (c :: rest) = countReserved rest + 1 := by
            rw [countReserved_cons, hs]; simp
          rw [hcnt]
          simp only [wakeSweepCells, hs, if_true, List.map]
          rw [ih]
          congr 1
          simp [wakeFun, hs]
      | false =>
          have hcnt : countReserved (c :: rest) = countReserved rest := by
            rw [countReserved_cons, hs]; simp
          rw [hcnt]
          cases hr : countReserved rest with
          | zero =>
              show (c :: rest) = _
              simp only [List.map]
              rw [wakeFun_not_reserved c hs, map_wakeFun_of_count_zero rest hr]
          | succ k =>
              simp only [wakeSweepCells, hs, List.map]
              rw [wakeFun_not_reserved c hs, ← hr, ih]
              simp

/-- The inductive invariant of the page-descriptor lifecycle: the
`in_flush_list` flag tracks `oldest_modification > 0`, a dirty page is a
file page, and the zip states are not entered by the modelled lifecycle. -/
def bufInv (d : buf_page_t) : Prop :=
  (d.in_flush_list = decide (0 < d.oldest_modification))
  ∧ (0 < d.oldest_modification → d.state = buf_page_state.filePage)
  ∧ d.state ≠ buf_page_state.zipDirty

theorem bufInv_step (d d' : buf_page_t) (h : BufStep d d') (hi : bufInv d) : bufInv d' := by
  obtain ⟨h1, h2, h3⟩ := hi
  cases h with
  | getFree d' hop =>
      unfold buf_LRU_get_free_block at hop
      split at hop
      case isTrue hst =>
        cases hop
        refine ⟨h1, fun hlt => ?_, by simp⟩
        have hcontra := h2 hlt
        rw [hst] at hcontra
        cases hcontra
      case isFalse => cases hop
  | toMemory d' hop =>
      unfold buf_block_to_memory at hop
      split at hop
      case isTrue hst =>
        cases hop
        refine ⟨h1, fun hlt => ?_, by simp⟩
        rw [h2 hlt] at hst; cases hst
      case isFalse => cases hop
  | initFilePage d' hop =>
      unfold buf_page_init_file_page at hop
      split at hop
      case isTrue hst =>
        cases hop
        exact ⟨by simp, by simp, by simp⟩
      case isFalse => cases hop
  | freeMemory d' hop =>
      unfold buf_block_free_memory at hop
      split at hop
      case isTrue hst =>
        cases hop
        refine ⟨h1, fun hlt => ?_, by simp⟩
        rw [h2 hlt] at hst; cases hst
      case isFalse => cases hop
  | evict d' hop =>
      unfold buf_LRU_evict_file_page at hop
      split at hop
      case isTrue hst =>
        cases hop
        refine ⟨?_, by simp [hst.2.2.1], by simp⟩
        simpa [hst.2.2.1] using h1
      case isFalse => cases hop
  | noteModification d' lsn hop =>
      unfold buf_flush_note_modification at hop
      split at hop
      case isTrue hst =>
        by_cases hold : d.oldest_modification = 0
        · rw [if_pos hold] at hop
          cases hop
          exact ⟨by simpa using hst.2, fun _ => hst.1, by simp [hst.1]⟩
        · rw [if_neg hold] at hop
          cases hop
          exact ⟨h1, fun _ => hst.1, by simp [hst.1]⟩
      case isFalse => cases hop
  | writeComplete d' hop =>
      unfold buf_flush_write_complete at hop
      split at hop
      case isTrue hst =>
        cases hop
        exact ⟨by simp, by simp, h3⟩
      case isFalse => cases hop
  | fix =>
      exact ⟨h1, h2, h3⟩
  | unfix d' hop =>
      unfold buf_page_unfix at hop
      split at hop
      case isTrue => cases hop; exact ⟨h1, h2, h3⟩
      case isFalse => cases hop
  | setIoFix d' io hop =>
      unfold buf_page_set_io_fix at hop
      split at hop
      case isTrue hst => cases hop; exact ⟨h1, h2, by simp [hst]⟩
      case isFalse => cases hop

theorem bufInv_reachable (d : buf_page_t) (h : BufReachable d) : bufInv d := by
  induction h with
  | init => exact ⟨rfl, by simp [initialPage], by simp [initialPage]⟩
  | step d d' _ hstep ih => exact bufInv_step d d' hstep ih

theorem sync_array_deadlock_step_congr (cells : List SyncCell) (start : Nat)
    (t : Nat) (p : Nat) (f g : Nat → Bool) (h : ∀ idx, f idx = g idx) :
    sync_array_deadlock_step cells start t p f
      = sync_array_deadlock_step cells start t p g := by
  unfold sync_array_deadlock_step
  split
  · rfl
  · cases sync_array_find_thread cells t with
    | none => rfl
    | some idx =>
        simp only
        split
        · rfl
        · exact h idx

theorem visit_ex_cond_eq (r : Nat) (d : RwDebug) :
    (((d.lock_type == ReqType.rwLockEx) && !(d.thread_id == r))
      || ((d.lock_type == ReqType.rwLockWaitEx) && !(d.thread_id == r))
      || (d.lock_type == ReqType.rwLockShared))
    = claim_visit_ex r d := by
  rcases d with ⟨tid, p, lt⟩
  simp only [claim_visit_ex]
  cases htr : (tid == r) <;> cases lt <;> rfl

theorem list_any_congr {α : Type} (l : List α) (f g : α → Bool)
    (h : ∀ a, f a = g a) : l.any f = l.any g := by
  have : f = g := funext h
  rw [this]

/-- Claim C6, amended: the debug deadlock detector follows
`wait_object -> holder thread -> holder cell` recursively; for a shared
request it visits every exclusive or wait-exclusive debug entry, and for an
exclusive (or wait-exclusive) request it visits every exclusive or
wait-exclusive entry of a different thread and every shared entry of *any*
thread (`claim_visit_ex`); it reports a deadlock exactly when the traversal
cycles back to the starting cell (`claim_detect_deadlock_amended`): the
source detector coincides with this traversal for every array, start cell,
current cell and recursion budget. -/
theorem deadlock_traversal_amended (cells : List SyncCell) (start : Nat) :
    ∀ fuel cur, sync_array_detect_deadlock cells start cur fuel
      = claim_detect_deadlock_amended cells start cur fuel := by
  intro fuel
  induction fuel with
  | zero => intro cur; rfl
  | succ n ih =>
      intro cur
      simp only [sync_array_detect_deadlock, claim_detect_deadlock_amended]
      cases cells.get? cur with
      | none => rfl
      | some cell =>
          obtain ⟨wo, rt, th, wa, sc⟩ := cell
          cases wa with
          | false => rfl
          | true =>
              simp only [Bool.not_true, if_neg (show ¬(false = true) by decide)]
              cases rt with
              | syncMutex =>
                  cases wo with
                  | none => rfl
                  | some obj =>
                      cases obj with
                      | rwObj l => rfl
                      | mutexObj m =>
                          dsimp only
                          by_cases hlw : (m.lock_word != 0) = true
                          · rw [if_pos hlw, if_pos hlw]
                            exact sync_array_deadlock_step_congr cells start m.thread_id 0 _ _
                              (fun idx => ih idx)
                          · rw [if_neg hlw, if_neg hlw]
              | rwLockEx =>
                  cases wo with
                  | none => rfl
                  | some obj =>
                      cases obj with
                      | mutexObj m => rfl
                      | rwObj l =>
                          apply list_any_congr
                          intro d
                          rw [visit_ex_cond_eq th d,
                            sync_array_deadlock_step_congr cells start d.thread_id d.pass _ _
                              (fun idx => ih idx)]
              | rwLockWaitEx =>
                  cases wo with
                  | none => rfl
                  | some obj =>
                      cases obj with
                      | mutexObj m => rfl
                      | rwObj l =>
                          apply list_any_congr
                          intro d
                          rw [visit_ex_cond_eq th d,
                            sync_array_deadlock_step_congr cells start d.thread_id d.pass _ _
                              (fun idx => ih idx)]
              | rwLockShared =>
                  cases wo with
                  | none => rfl
                  | some obj =>
                      cases obj with
                      | mutexObj m => rfl
                      | rwObj l =>
                          apply list_any_congr
                          intro d
                          rw [sync_array_deadlock_step_congr cells start d.thread_id d.pass _ _
                              (fun idx => ih idx)]

/-! ## Claims -/

/-- Claim C1: at every quiescent point of every reachable wait-array state,
the number of cells whose `wait_object` is non-null equals `n_reserved`;
equivalently, the `ut_a` of `sync_array_validate` holds.  Reachability
closes over `sync_array_reserve_cell`, `sync_array_wait_event`,
`sync_array_free_cell` and the unstick sweep, so each of them preserves the
invariant. -/
theorem sync_array_validate_in_reachable_states (arr : SyncArray)
    (h : SyncReachable arr) : sync_array_validate arr = true := by
  have hinv := syncInv_reachable arr h
  simp only [sync_array_validate, syncInv] at hinv ⊢
  simp [hinv]

theorem sync_array_validate_in_reachable_states_witness :
    sync_array_validate
      (sync_array_reserve_cell (sync_array_create 2) demoMutexObj ReqType.syncMutex 9).2
      = true :=
  sync_array_validate_in_reachable_states _
    (SyncReachable.reserve _ demoMutexObj ReqType.syncMutex 9
      (SyncReachable.init 2 (by decide)))

/-- Claim C6, counterexample: for an exclusive request the source visits a
*shared* holder even when its thread equals the requester (self-deadlock of
an S-to-X upgrade), whereas the claim's traversal — which visits only
holders whose thread differs from the requester — does not: on the
one-cell state `selfDeadlockCell` the source reports a deadlock and the
claim's traversal reports none. -/
theorem deadlock_traversal_claim_counterexample :
    sync_array_detect_deadlock [selfDeadlockCell] 0 0 10 = true
    ∧ claim_detect_deadlock_strict [selfDeadlockCell] 0 0 10 = false := by
  decide

theorem deadlock_traversal_amended_witness :
    sync_array_detect_deadlock [selfDeadlockCell] 0 0 10
      = claim_detect_deadlock_amended [selfDeadlockCell] 0 0 10 :=
  deadlock_traversal_amended [selfDeadlockCell] 0 10 0

/-- Claim C7, counterexample: with `n_threads = 32` and 32 instances the
source provisions `1 + (32 - 1) / 32 = 1` cell per instance, not
`32 / 32 + 1 = 2` as the claim states. -/
theorem sync_array_init_slots_counterexample :
    (¬ ∀ a ∈ sync_array_init 32 32, a.cells.length = 32 / 32 + 1)
    ∧ (∀ a ∈ sync_array_init 32 32, a.cells.length = 1) := by
  decide

/-- Claim C7, amended: `sync_array_init` creates every instance with
`1 + (n_threads - 1) / n_instances` cells — the ceiling of
`n_threads / n_instances` — which equals `n_threads / n_instances + 1`
only when `n_instances` does not divide `n_threads`. -/
theorem sync_array_init_slots_amended (n_threads n_instances : Nat)
    (hn : 0 < n_threads) (hs : 0 < n_instances) (a : SyncArray)
    (ha : a ∈ sync_array_init n_threads n_instances) :
    a.cells.length = 1 + (n_threads - 1) / n_instances := by
  have := List.eq_of_mem_replicate ha
  rw [this]
  simp [sync_array_create]

theorem sync_array_init_slots_amended_witness :
    (sync_array_create 4).cells.length = 1 + (7 - 1) / 2 :=
  sync_array_init_slots_amended 7 2 (by decide) (by decide)
    (sync_array_create 4) (by decide)

/-- Claim C8: `acquire` test-and-sets the reserved flag and returns true
iff the slot was free at that moment; an acquire immediately following a
successful acquire returns false; `release` clears the flag, and
acquire-release-acquire succeeds again. -/
theorem tmp_buffer_acquire_release_spec (s : buf_tmp_buffer_t) :
    ((s.acquire).1 = true ↔ s.reserved = false)
    ∧ (s.acquire).2.reserved = true
    ∧ ((s.acquire).2.acquire).1 = false
    ∧ (s.release).reserved = false
    ∧ (((s.acquire).2.release).acquire).1 = true := by
  rcases s with ⟨r⟩
  cases r <;> decide

theorem tmp_buffer_acquire_release_spec_witness :
    ((buf_tmp_buffer_t.mk false).acquire).1 = true :=
  (tmp_buffer_acquire_release_spec (buf_tmp_buffer_t.mk false)).1.mpr rfl

/-- Claim C4: at every quiescent point of a reachable page descriptor, the
descriptor is in the flush list iff `oldest_modification > 0`, which holds
iff the descriptor is dirty (a file page with an unflushed modification, or
`ZIP_DIRTY`); in particular a clean page is never in the flush list. -/
theorem in_flush_list_iff_oldest_modification_pos (d : buf_page_t)
    (h : BufReachable d) :
    (d.in_flush_list = true ↔ 0 < d.oldest_modification)
    ∧ (0 < d.oldest_modification ↔ dirtyState d) := by
  obtain ⟨h1, h2, h3⟩ := bufInv_reachable d h
  refine ⟨?_, ?_, ?_⟩
  · rw [h1]; simp
  · intro hlt; exact Or.inl ⟨h2 hlt, hlt⟩
  · rintro (⟨_, hlt⟩ | hz)
    · exact hlt
    · exact absurd hz h3

theorem in_flush_list_iff_oldest_modification_pos_witness :
    (dirtyDemoPage.in_flush_list = true ↔ 0 < dirtyDemoPage.oldest_modification) :=
  (in_flush_list_iff_oldest_modification_pos dirtyDemoPage
    (BufReachable.step cleanDemoPage dirtyDemoPage
      (BufReachable.step readyDemoPage cleanDemoPage
        (BufReachable.step initialPage readyDemoPage BufReachable.init
          (BufStep.getFree readyDemoPage (by decide)))
        (BufStep.initFilePage cleanDemoPage (by decide)))
      (BufStep.noteModification dirtyDemoPage 100 (by decide)))).1

/-- Claim C5: every state change performed by a lifecycle operation is one
of `NOT_USED -> READY_FOR_USE`, `READY_FOR_USE -> MEMORY`,
`READY_FOR_USE -> FILE_PAGE`, `MEMORY -> NOT_USED`,
`FILE_PAGE -> NOT_USED`, and the last one is taken only when
`buf_fix_count = 0`, `oldest_modification = 0` and `io_fix = NONE`. -/
theorem buf_page_transitions_confined (d d' : buf_page_t) (h : BufStep d d')
    (hne : d.state ≠ d'.state) :
    allowedTransition d.state d'.state = true
    ∧ (d.state = buf_page_state.filePage → d'.state = buf_page_state.notUsed →
        d.buf_fix_count = 0 ∧ d.oldest_modification = 0 ∧ d.io_fix = buf_io_fix.ioNone) := by
  cases h with
  | getFree d' hop =>
      unfold buf_LRU_get_free_block at hop
      split at hop
      case isTrue hst =>
        cases hop
        refine ⟨by rw [hst]; rfl, fun h1 _ => ?_⟩
        rw [hst] at h1; cases h1
      case isFalse => cases hop
  | toMemory d' hop =>
      unfold buf_block_to_memory at hop
      split at hop
      case isTrue hst =>
        cases hop
        refine ⟨by rw [hst]; rfl, fun h1 _ => ?_⟩
        rw [hst] at h1; cases h1
      case isFalse => cases hop
  | initFilePage d' hop =>
      unfold buf_page_init_file_page at hop
      split at hop
      case isTrue hst =>
        cases hop
        refine ⟨by rw [hst]; rfl, fun h1 _ => ?_⟩
        rw [hst] at h1; cases h1
      case isFalse => cases hop
  | freeMemory d' hop =>
      unfold buf_block_free_memory at hop
      split at hop
      case isTrue hst =>
        cases hop
        refine ⟨by rw [hst]; rfl, fun h1 _ => ?_⟩
        rw [hst] at h1; cases h1
      case isFalse => cases hop
  | evict d' hop =>
      unfold buf_LRU_evict_file_page at hop
      split at hop
      case isTrue hst =>
        cases hop
        exact ⟨by rw [hst.1]; rfl, fun _ _ => ⟨hst.2.1, hst.2.2.1, hst.2.2.2⟩⟩
      case isFalse => cases hop
  | noteModification d' lsn hop =>
      unfold buf_flush_note_modification at hop
      split at hop
      case isTrue hst =>
        by_cases hold : d.oldest_modification = 0
        · rw [if_pos hold] at hop; cases hop; exact absurd rfl hne
        · rw [if_neg hold] at hop; cases hop; exact absurd rfl hne
      case isFalse => cases hop
  | writeComplete d' hop =>
      unfold buf_flush_write_complete at hop
      split at hop
      case isTrue => cases hop; exact absurd rfl hne
      case isFalse => cases hop
  | fix => exact absurd rfl hne
  | unfix d' hop =>
      unfold buf_page_unfix at hop
      split at hop
      case isTrue => cases hop; exact absurd rfl hne
      case isFalse => cases hop
  | setIoFix d' io hop =>
      unfold buf_page_set_io_fix at hop
      split at hop
      case isTrue => cases hop; exact absurd rfl hne
      case isFalse => cases hop

theorem buf_page_transitions_confined_witness :
    allowedTransition initialPage.state readyDemoPage.state = true :=
  (buf_page_transitions_confined initialPage readyDemoPage
    (BufStep.getFree readyDemoPage (by decide)) (by decide)).1

/-- Claim C9: `sync_array_reserve_cell` increments `res_count` on every
call, including calls that fail to find a free cell, and no other
operation changes `res_count`, so it counts reservation attempts and never
decreases. -/
theorem res_count_monotone_spec (arr : SyncArray) (o : WaitObject)
    (rt : ReqType) (t : Nat) (i : Nat) :
    ((sync_array_reserve_cell arr o rt t).2.res_count = arr.res_count + 1)
    ∧ (∀ arr', sync_array_free_cell arr i = some arr' → arr'.res_count = arr.res_count)
    ∧ (∀ arr', sync_array_wait_event arr i = some arr' → arr'.res_count = arr.res_count)
    ∧ (sync_array_wake_threads_if_sema_free_low arr).res_count = arr.res_count := by
  refine ⟨?_, ?_, ?_, rfl⟩
  · cases hscan : reserveScan o rt t arr.cells with
    | none => simp [sync_array_reserve_cell, hscan]
    | some p => obtain ⟨i0, cells'⟩ := p; simp [sync_array_reserve_cell, hscan]
  · intro arr' hf
    obtain ⟨c, _, _, _, rfl⟩ := sync_array_free_cell_eq arr i arr' hf
    rfl
  · intro arr' hw
    obtain ⟨c, hc, _, _, hfree⟩ := sync_array_wait_event_eq arr i arr' hw
    obtain ⟨c', _, _, _, rfl⟩ := sync_array_free_cell_eq _ i arr' hfree
    rfl

theorem res_count_monotone_spec_witness :
    ((sync_array_reserve_cell fullDemoArr demoMutexObj ReqType.syncMutex 4).2.res_count
        = fullDemoArr.res_count + 1)
    ∧ freedDemoArr.res_count = fullDemoArr.res_count :=
  ⟨(res_count_monotone_spec fullDemoArr demoMutexObj ReqType.syncMutex 4 0).1,
   (res_count_monotone_spec fullDemoArr demoMutexObj ReqType.syncMutex 4 0).2.1
     freedDemoArr (by decide)⟩

/-- Claim C10: when `sync_array_reserve_cell` succeeds with index `i`,
cell `i` was free at entry and every cell at a smaller index was occupied:
the scan runs from index 0 upward and takes the first free cell. -/
theorem reserve_cell_takes_first_free (arr : SyncArray) (o : WaitObject)
    (rt : ReqType) (t : Nat) (i : Nat)
    (h : (sync_array_reserve_cell arr o rt t).1 = some i) :
    ((arr.cells.get? i).map (fun c => c.wait_object.isNone) = some true)
    ∧ (∀ j, j < i → (arr.cells.get? j).map (fun c => c.wait_object.isSome) = some true) := by
  cases hscan : reserveScan o rt t arr.cells with
  | none => simp [sync_array_reserve_cell, hscan] at h
  | some p =>
      obtain ⟨i0, cells'⟩ := p
      simp only [sync_array_reserve_cell, hscan] at h
      cases h
      obtain ⟨⟨c, hc, hnone⟩, hbefore, _⟩ :=
        reserveScan_some_spec o rt t arr.cells i cells' hscan
      refine ⟨?_, ?_⟩
      · rw [hc]; simp [hnone]
      · intro j hj
        obtain ⟨cj, hcj, hsome⟩ := hbefore j hj
        rw [hcj]
        simp [hsome]

theorem reserve_cell_takes_first_free_witness :
    ((halfFullArr.cells.get? 1).map (fun c => c.wait_object.isNone) = some true)
    ∧ ((halfFullArr.cells.get? 0).map (fun c => c.wait_object.isSome) = some true) :=
  ⟨(reserve_cell_takes_first_free halfFullArr demoMutexObj ReqType.syncMutex 8 1 (by decide)).1,
   (reserve_cell_takes_first_free halfFullArr demoMutexObj ReqType.syncMutex 8 1 (by decide)).2
     0 (by decide)⟩

/-- Claim C2: `sync_array_reserve_cell` succeeds iff some cell is free at
entry, recording the wait object (with its event reset and the signal
count snapshotted), the request type and the calling thread in the
reserved cell and incrementing `n_reserved`; when every cell is occupied
it fails without reserving anything (only `res_count` advances); and
`sync_array_free_cell` and `sync_array_wait_event` cannot fail under their
documented preconditions. -/
theorem sync_array_reserve_cell_spec (arr : SyncArray) (o : WaitObject)
    (rt : ReqType) (t : Nat) :
    ((sync_array_reserve_cell arr o rt t).1.isSome = true
        ↔ ∃ c ∈ arr.cells, c.wait_object = none)
    ∧ ((sync_array_reserve_cell arr o rt t).1 = none →
        (sync_array_reserve_cell arr o rt t).2
          = { arr with res_count := arr.res_count + 1 })
    ∧ (∀ i, (sync_array_reserve_cell arr o rt t).1 = some i →
        (sync_array_reserve_cell arr o rt t).2.cells.get? i
            = some (mkReservedCell o rt t)
        ∧ (sync_array_reserve_cell arr o rt t).2.n_reserved = arr.n_reserved + 1)
    ∧ (∀ i c, arr.cells.get? i = some c → c.wait_object.isSome = true →
        0 < arr.n_reserved → (sync_array_free_cell arr i).isSome = true)
    ∧ (∀ i c, arr.cells.get? i = some c → c.wait_object.isSome = true →
        c.waiting = false → 0 < arr.n_reserved →
        (sync_array_wait_event arr i).isSome = true) := by
  refine ⟨?_, ?_, ?_, ?_, ?_⟩
  · cases hscan : reserveScan o rt t arr.cells with
    | none =>
        simp only [sync_array_reserve_cell, hscan]
        constructor
        · intro hs; simp at hs
        · rintro ⟨c, hmem, hnone⟩
          have hall := (reserveScan_none_iff o rt t arr.cells).mp hscan c hmem
          rw [hnone] at hall
          cases hall
    | some p =>
        obtain ⟨i0, cells'⟩ := p
        obtain ⟨⟨c, hc, hnone⟩, _, _⟩ :=
          reserveScan_some_spec o rt t arr.cells i0 cells' hscan
        simp only [sync_array_reserve_cell, hscan]
        constructor
        · intro _; exact ⟨c, List.get?_mem hc, hnone⟩
        · intro _; simp
  · intro hnone
    cases hscan : reserveScan o rt t arr.cells with
    | none => simp [sync_array_reserve_cell, hscan]
    | some p =>
        obtain ⟨i0, cells'⟩ := p
        simp [sync_array_reserve_cell, hscan] at hnone
  · intro i hi
    cases hscan : reserveScan o rt t arr.cells with
    | none => simp [sync_array_reserve_cell, hscan] at hi
    | some p =>
        obtain ⟨i0, cells'⟩ := p
        simp only [sync_array_reserve_cell, hscan] at hi ⊢
        cases hi
        obtain ⟨⟨c, hc, hnone⟩, _, hset⟩ :=
          reserveScan_some_spec o rt t arr.cells i cells' hscan
        have hlt : i < arr.cells.length := (List.get?_eq_some.mp hc).1
        exact ⟨by rw [hset]; exact List.get?_set_eq_of_lt _ hlt, trivial⟩
  · intro i c hc hsome hpos
    cases hwo : c.wait_object with
    | none => rw [hwo] at hsome; cases hsome
    | some w =>
        have hc' : arr.cells[i]? = some c := by
          rw [← List.get?_eq_getElem?]; exact hc
        simp [sync_array_free_cell, hc', hwo, Nat.pos_iff_ne_zero.mp hpos]
  · intro i c hc hsome hwait hpos
    cases hwo : c.wait_object with
    | none => rw [hwo] at hsome; cases hsome
    | some w =>
        have hlt : i < arr.cells.length := (List.get?_eq_some.mp hc).1
        have hc' : arr.cells[i]? = some c := by
          rw [← List.get?_eq_getElem?]; exact hc
        have hset' : (arr.cells.set i { c with waiting := true })[i]?
            = some { c with waiting := true } :=
          List.getElem?_set_eq_of_lt _ hlt
        rw [hwo] at hset'
        simp [sync_array_wait_event, hc', hwo, hwait, sync_array_free_cell,
          hset', Nat.pos_iff_ne_zero.mp hpos]

theorem sync_array_reserve_cell_spec_witness :
    (sync_array_reserve_cell (sync_array_create 1) demoMutexObj
      ReqType.syncMutex 4).1.isSome = true :=
  (sync_array_reserve_cell_spec (sync_array_create 1) demoMutexObj
      ReqType.syncMutex 4).1.mpr ⟨emptyCell, by decide, rfl⟩

/-- Claim C3: one unstick sweep maps every cell through `wakeFun`, so the
event is set for exactly the reserved cells whose wait object satisfies
the release predicate for their request type; the predicate is
`lock_word == 0` for a `SYNC_MUTEX` request, `lock_word > 0` for
`RW_LOCK_SHARED`, `lock_word > 0` for `RW_LOCK_EX`, and `lock_word == 0`
for `RW_LOCK_WAIT_EX`. -/
theorem wake_threads_signals_exactly_eligible (arr : SyncArray)
    (h : sync_array_validate arr = true) :
    (∀ j : Nat, (sync_array_wake_threads_if_sema_free_low arr).cells.get? j
        = (arr.cells.get? j).map wakeFun)
    ∧ (∀ c : SyncCell, ∀ m : IbMutex, c.request_type = ReqType.syncMutex →
        c.wait_object = some (WaitObject.mutexObj m) →
        sync_arr_cell_can_wake_up c = (m.lock_word == 0))
    ∧ (∀ c : SyncCell, ∀ l : RwLock, c.request_type = ReqType.rwLockShared →
        c.wait_object = some (WaitObject.rwObj l) →
        sync_arr_cell_can_wake_up c = decide (0 < l.lock_word))
    ∧ (∀ c : SyncCell, ∀ l : RwLock, c.request_type = ReqType.rwLockEx →
        c.wait_object = some (WaitObject.rwObj l) →
        sync_arr_cell_can_wake_up c = decide (0 < l.lock_word))
    ∧ (∀ c : SyncCell, ∀ l : RwLock, c.request_type = ReqType.rwLockWaitEx →
        c.wait_object = some (WaitObject.rwObj l) →
        sync_arr_cell_can_wake_up c = (l.lock_word == 0)) := by
  have hv : countReserved arr.cells = arr.n_reserved := by
    simpa [sync_array_validate] using h
  refine ⟨?_, ?_, ?_, ?_, ?_⟩
  · intro j
    show (wakeSweepCells arr.cells arr.n_reserved).get? j = _
    rw [← hv, wakeSweep_eq_map]
    exact List.get?_map wakeFun arr.cells j
  · rintro ⟨wo, crt, cth, cwa, csc⟩ m h1 h2
    simp only at h1 h2
    subst h1; subst h2; rfl
  · rintro ⟨wo, crt, cth, cwa, csc⟩ l h1 h2
    simp only at h1 h2
    subst h1; subst h2; rfl
  · rintro ⟨wo, crt, cth, cwa, csc⟩ l h1 h2
    simp only at h1 h2
    subst h1; subst h2; rfl
  · rintro ⟨wo, crt, cth, cwa, csc⟩ l h1 h2
    simp only at h1 h2
    subst h1; subst h2; rfl

theorem wake_threads_signals_exactly_eligible_witness :
    (sync_array_wake_threads_if_sema_free_low sweepDemoArr).cells.get? 0
      = (sweepDemoArr.cells.get? 0).map wakeFun :=
  (wake_threads_signals_exactly_eligible sweepDemoArr (by decide)).1 0

end Server
